import Mathlib

/-!
Verification of the AzCore shared-memory IPC layer
(`dev/Code/Framework/AzCore/AzCore/IPC/SharedMemory.h`).

The repository ships only the class declarations (`SharedMemory`,
`SharedMemoryRingBuffer`) together with their interface documentation; the
method bodies live in a platform source file that is not part of the tree.
Consequently the operational definitions below are modelled from the spec
(each such definition says so in its doc comment), while the inline members
that do appear in the header (`IsReady`, `IsMapped`, `GetName`, the
128-byte `m_name` buffer) are embedded directly from the source.

The file is organized as definitions first, theorems second.
-/

namespace AZ

/-! ### Byte memory

The mapped capacity region is a byte store addressed by offsets; we model it
as a function from offsets to byte values. -/

/-- Store one byte at an address. -/
def update (f : Nat → Nat) (i v : Nat) : Nat → Nat :=
  fun j => if j = i then v else f j

/-- Copy a byte list into the store starting at offset `start`, wrapping
every address modulo the capacity `c` (the physical split of one logical
write into two copies at the wraparound boundary). -/
def writeBytes (f : Nat → Nat) (c : Nat) : Nat → List Nat → (Nat → Nat)
  | _, [] => f
  | start, b :: rest => writeBytes (update f (start % c) b) c (start + 1) rest

/-! ### The ring buffer

`SharedMemoryRingBuffer` (header lines 112-142) interprets the mapped region
as a `RingData` header (write offset, read offset, capacity) followed by the
capacity region of payload bytes. -/

/-- State of one `SharedMemoryRingBuffer`: the `Internal::RingData` header
fields together with the bytes of the capacity region.  Modelled from the
spec: the header struct's body is not in `src/`; the spec gives it
`write offset`/`read offset` in `[0, capacity)` and a fixed `capacity`. -/
structure SharedMemoryRingBuffer where
  capacity : Nat
  writeOffset : Nat
  readOffset : Nat
  data : Nat → Nat

namespace SharedMemoryRingBuffer

/-- Modelled from the spec: the body of `SharedMemoryRingBuffer::DataToRead`
is not in `src/`; the spec defines pending bytes as
`(write − read) mod capacity`, written over `Nat` as
`(write + capacity − read) mod capacity`. -/
def DataToRead (s : SharedMemoryRingBuffer) : Nat :=
  (s.writeOffset + s.capacity - s.readOffset) % s.capacity

/-- Modelled from the spec: the body of `SharedMemoryRingBuffer::MaxToWrite`
is not in `src/`; the spec defines the free space as
`capacity − pending − 1`, one slot being reserved to disambiguate a full
ring from an empty one. -/
def MaxToWrite (s : SharedMemoryRingBuffer) : Nat :=
  s.capacity - DataToRead s - 1

/-- Modelled from the spec: the body of `SharedMemoryRingBuffer::Write` is
not in `src/`; the spec has it fail without any mutation when
`dataSize > max to write`, and otherwise copy the payload at the write
offset (wrapping) and advance `write offset = (write offset + dataSize) mod
capacity`.  The returned `Bool` is the C++ return value; the second
component is the state after the call. -/
def Write (s : SharedMemoryRingBuffer) (payload : List Nat) :
    Bool × SharedMemoryRingBuffer :=
  if payload.length > MaxToWrite s then (false, s)
  else (true,
    { s with
      data := writeBytes s.data s.capacity s.writeOffset payload
      writeOffset := (s.writeOffset + payload.length) % s.capacity })

/-- The bytes at the `n` wrapped positions starting at the read offset. -/
def readBytes (s : SharedMemoryRingBuffer) (n : Nat) : List Nat :=
  (List.range n).map fun i => s.data ((s.readOffset + i) % s.capacity)

/-- Modelled from the spec: the body of `SharedMemoryRingBuffer::Read` is
not in `src/`; the spec has it copy `min(maxDataSize, data to read)` bytes
from the read offset (wrapping), advance the read offset by that amount
modulo the capacity, and return the number of bytes copied.  The returned
list holds the copied bytes (its length is the C++ return value). -/
def Read (s : SharedMemoryRingBuffer) (maxDataSize : Nat) :
    List Nat × SharedMemoryRingBuffer :=
  let n := min maxDataSize (DataToRead s)
  (readBytes s n, { s with readOffset := (s.readOffset + n) % s.capacity })

/-- Modelled from the spec: the body of `SharedMemoryRingBuffer::Clear` is
not in `src/`; the spec has it reset `write offset = read offset = 0` in
addition to the inherited zero-fill of the data region. -/
def Clear (s : SharedMemoryRingBuffer) : SharedMemoryRingBuffer :=
  { s with writeOffset := 0, readOffset := 0, data := fun _ => 0 }

/-- Modelled from the spec: ring creation (first arrival) initializes
`write offset = read offset = 0` over a freshly zero-filled region of the
given capacity. -/
def init (c : Nat) : SharedMemoryRingBuffer :=
  { capacity := c, writeOffset := 0, readOffset := 0, data := fun _ => 0 }

/-- Structural well-formedness: a positive capacity and both offsets inside
`[0, capacity)`, as the spec's data model demands. -/
def WF (s : SharedMemoryRingBuffer) : Prop :=
  0 < s.capacity ∧ s.writeOffset < s.capacity ∧ s.readOffset < s.capacity

instance (s : SharedMemoryRingBuffer) : Decidable (WF s) := by
  unfold WF; infer_instance

/-- The states reachable from ring creation by the ring operations. -/
inductive Reachable : Nat → SharedMemoryRingBuffer → Prop
  | create (c : Nat) : 0 < c → Reachable c (init c)
  | write (c : Nat) (s : SharedMemoryRingBuffer) (p : List Nat) :
      Reachable c s → Reachable c (Write s p).2
  | read (c : Nat) (s : SharedMemoryRingBuffer) (n : Nat) :
      Reachable c s → Reachable c (Read s n).2
  | clear (c : Nat) (s : SharedMemoryRingBuffer) :
      Reachable c s → Reachable c (Clear s)

/-- The pending bytes, oldest first: the abstraction of the ring state to
the contents of a plain byte queue. -/
def ringPending (s : SharedMemoryRingBuffer) : List Nat :=
  readBytes s (DataToRead s)

/-- One ring operation of a trace: a `Write` of a payload or a `Read` with
a maximum size. -/
inductive RingOp where
  | write (payload : List Nat)
  | read (maxSize : Nat)

/-- Total number of payload bytes enqueued by the writes of a trace. -/
def totalWritten : List RingOp → Nat
  | [] => 0
  | RingOp.write p :: ops => p.length + totalWritten ops
  | RingOp.read _ :: ops => totalWritten ops

/-- Run a trace on the ring buffer, collecting all bytes delivered by the
reads; `none` when some `Write` of the trace fails. -/
def runRing (s : SharedMemoryRingBuffer) :
    List RingOp → Option (List Nat × SharedMemoryRingBuffer)
  | [] => some ([], s)
  | RingOp.write p :: ops =>
    if (Write s p).1 then runRing (Write s p).2 ops else none
  | RingOp.read n :: ops =>
    match runRing (Read s n).2 ops with
    | none => none
    | some (outs, sf) => some ((Read s n).1 ++ outs, sf)

/-- Run a trace on the reference unbounded byte queue: a write appends the
payload, a read dequeues up to the requested count.  Returns the collected
read output and the final queue contents. -/
def runQueue (q : List Nat) : List RingOp → List Nat × List Nat
  | [] => ([], q)
  | RingOp.write p :: ops => runQueue (q ++ p) ops
  | RingOp.read n :: ops =>
    let rest := runQueue (q.drop n) ops
    (q.take n ++ rest.1, rest.2)

/-- A concrete empty ring of capacity 4 whose offsets sit at 2, so that a
3-byte payload straddles the wraparound boundary. -/
def wrapState : SharedMemoryRingBuffer :=
  { capacity := 4, writeOffset := 2, readOffset := 2, data := fun _ => 0 }

/-- A concrete trace on a capacity-4 ring that enqueues 8 bytes in total,
forcing the offsets to wrap (write offset passes the boundary at the third
write, read offset at the third read). -/
def fifoTrace : List RingOp :=
  [RingOp.write [1, 2, 3], RingOp.read 3,
   RingOp.write [4, 5, 6], RingOp.read 3,
   RingOp.write [7, 8], RingOp.read 2]

end SharedMemoryRingBuffer

/-! ### The shared-memory segment (`SharedMemory`, header lines 35-107) -/

namespace SharedMemory

/-- The tri-state result of `SharedMemory::Create` (header lines 62-67). -/
inductive CreateResult where
  | CreateFailed
  | CreatedNew
  | CreatedExisting
deriving DecidableEq

/-- The backing memory of one named mapping object: its size and its byte
contents, shared by every process that attaches to the name. -/
structure SegMem where
  size : Nat
  mem : Nat → Nat

/-- Contents read through a mapped view of an optional mapping object. -/
def segByte (o : Option SegMem) (i : Nat) : Nat :=
  match o with
  | none => 0
  | some m => m.mem i

/-- Modelled from the spec: the body of `SharedMemory::Create` is not in
`src/` (the header, line 72, documents it as "Create a shared memory
block. If openIfCreated is false all memory will be cleared to 0.").  Per
the spec it fails on size zero; creates a zero-initialized object of the
requested size when the name is unused (`CreatedNew`); attaches to a
pre-existing object leaving its content untouched when `openIfCreated`
(`CreatedExisting`).  `existing` is the mapping object currently registered
under the name, the second component the object registered afterwards. -/
def Create (existing : Option SegMem) (size : Nat) (openIfCreated : Bool) :
    CreateResult × Option SegMem :=
  if size = 0 then (CreateResult.CreateFailed, existing)
  else
    match existing with
    | none => (CreateResult.CreatedNew, some ⟨size, fun _ => 0⟩)
    | some m =>
      if openIfCreated then (CreateResult.CreatedExisting, some m)
      else (CreateResult.CreateFailed, some m)

/-- The per-process handle fields of `SharedMemory` (header lines 38-48):
`m_mapHandle`, `m_mappedBase` and `m_data`, each either invalid/null
(`none`) or holding a value. -/
structure HandleState where
  mapHandle : Option Nat
  mappedBase : Option Nat
  data : Option Nat

/-- `SharedMemory::IsReady`, header line 77: `m_mapHandle != NULL`. -/
def IsReady (h : HandleState) : Bool := h.mapHandle.isSome

/-- `SharedMemory::IsMapped`, header line 85: `m_mappedBase != nullptr`. -/
def IsMapped (h : HandleState) : Bool := h.mappedBase.isSome

/-- A freshly constructed handle: no mapping object, no view. -/
def newHandle : HandleState := ⟨none, none, none⟩

/-- Modelled from the spec: a successful `Create`/`Open` establishes the
mapping handle and does not map a view (bodies not in `src/`). -/
def createOp (h : HandleState) (k : Nat) : HandleState :=
  { h with mapHandle := some k }

/-- Modelled from the spec: a successful `Map` establishes the local view
at some base address; the data pointer equals the base or is offset past a
reserved header (body not in `src/`). -/
def mapOp (h : HandleState) (base off : Nat) : HandleState :=
  { h with mappedBase := some base, data := some (base + off) }

/-- Modelled from the spec: `UnMap` releases the local view, after which
`IsMapped()` is false (body not in `src/`). -/
def unMapOp (h : HandleState) : HandleState :=
  { h with mappedBase := none, data := none }

/-- Modelled from the spec: `Close` releases both the view and the handle
references (body not in `src/`). -/
def closeOp (_ : HandleState) : HandleState := ⟨none, none, none⟩

/-- Handle states reachable through the segment lifecycle. -/
inductive HReach : HandleState → Prop
  | new : HReach newHandle
  | create (h : HandleState) (k : Nat) : HReach h → HReach (createOp h k)
  | map (h : HandleState) (base off : Nat) :
      HReach h → IsReady h = true → HReach (mapOp h base off)
  | unmap (h : HandleState) : HReach h → HReach (unMapOp h)
  | close (h : HandleState) : HReach h → HReach (closeOp h)

/-- Outcome recorded by the most recent lock acquisition attempt
(`m_lastLockResult`, header line 49). -/
inductive LockAcquire where
  | released
  | normal
  | abandoned
deriving DecidableEq

/-- The cross-process mutex as seen by one handle: whether this caller
currently holds it, and the recorded result of the last acquisition. -/
structure GlobalMutex where
  held : Bool
  lastLockResult : LockAcquire

/-- State before any acquisition. -/
def mutexInit : GlobalMutex := ⟨false, LockAcquire.released⟩

/-- Modelled from the spec: `lock()` blocks until acquired; the acquisition
records whether it was granted because the previous holder terminated
without releasing (abandonment), per header lines 92-97 (body not in
`src/`). -/
def lockOp (prevAbandoned : Bool) (_ : GlobalMutex) : GlobalMutex :=
  ⟨true, if prevAbandoned then LockAcquire.abandoned else LockAcquire.normal⟩

/-- Modelled from the spec: `unlock()` releases the mutex; afterwards the
holder-only abandonment query reports false again, per the header comment
"Otherwise it will always return false" (body not in `src/`). -/
def unlockOp (_ : GlobalMutex) : GlobalMutex :=
  ⟨false, LockAcquire.released⟩

/-- Modelled from the spec: `try_lock()` either acquires (like `lock()`)
or returns immediately leaving the state unchanged (body not in `src/`). -/
def tryLockOp (acquired prevAbandoned : Bool) (m : GlobalMutex) :
    GlobalMutex :=
  if acquired then lockOp prevAbandoned m else m

/-- `SharedMemory::IsLockAbandoned`, header line 97.  Modelled from the
spec: the body is not in `src/`; it reports whether the recorded result of
the most recent acquisition is an abandonment. -/
def IsLockAbandoned (m : GlobalMutex) : Bool :=
  decide (m.lastLockResult = LockAcquire.abandoned)

/-- Mutex states reachable through lock/try_lock/unlock from one caller. -/
inductive MReach : GlobalMutex → Prop
  | start : MReach mutexInit
  | lock (m : GlobalMutex) (pa : Bool) : MReach m → MReach (lockOp pa m)
  | tryLock (m : GlobalMutex) (acq pa : Bool) :
      MReach m → MReach (tryLockOp acq pa m)
  | unlock (m : GlobalMutex) : MReach m → MReach (unlockOp m)

/-- Modelled from the spec: `Create`/`Open` store the caller's name in the
fixed `char m_name[128]` buffer (header line 38), keeping at most 127
characters so the terminator always fits (bodies not in `src/`). -/
def storeName (name : List Char) : List Char := name.take 127

/-- `SharedMemory::GetName`, header line 100: returns the stored buffer. -/
def GetName (stored : List Char) : List Char := stored

end SharedMemory

/-! ### Modular arithmetic for the wraparound offsets -/

/-- Adding distinct residues below the capacity to a common base yields
distinct positions modulo the capacity. -/
theorem add_mod_inj {c r x y : Nat} (hx : x < c) (hy : y < c)
    (h : (r + x) % c = (r + y) % c) : x = y := by
  have hmod : x ≡ y [MOD c] := Nat.ModEq.add_left_cancel' r h
  have := Nat.ModEq.eq_of_lt_of_lt hmod hx hy
  exact this

/-- The read offset advanced by the pending count lands on the write offset. -/
theorem read_add_pending {c r w : Nat} (hr : r < c) (hw : w < c) :
    (r + (w + c - r) % c) % c = w := by
  have h1 : (r + (w + c - r) % c) % c = (r + (w + c - r)) % c := by
    rw [Nat.add_comm r ((w + c - r) % c), Nat.mod_add_mod, Nat.add_comm]
  have h2 : r + (w + c - r) = w + c := by omega
  rw [h1, h2, Nat.add_mod_right, Nat.mod_eq_of_lt hw]

/-- Recover an advance amount from the offset it produced: if moving `x`
steps from base `b` lands on `(b + x) % c`, then the wraparound distance
from `b` to that offset is again `x`. -/
theorem mod_sub_cancel {c b x : Nat} (hb : b ≤ c) (hx : x < c) :
    ((b + x) % c + c - b) % c = x := by
  have h1 : (b + x) % c + c - b = (b + x) % c + (c - b) := by omega
  have h2 : ((b + x) % c + (c - b)) % c = (b + x + (c - b)) % c :=
    Nat.mod_add_mod (b + x) c (c - b)
  have h3 : b + x + (c - b) = x + c := by omega
  rw [h1, h2, h3, Nat.add_mod_right, Nat.mod_eq_of_lt hx]

/-! ### Properties of the byte store -/

theorem update_same (f : Nat → Nat) (i v : Nat) : update f i v i = v := by
  simp [update]

theorem update_other (f : Nat → Nat) {i j : Nat} (v : Nat) (h : j ≠ i) :
    update f i v j = f j := by
  simp [update, h]

/-- A position touched by none of the copied bytes keeps its old value. -/
theorem writeBytes_untouched (c : Nat) (L : List Nat) :
    ∀ (f : Nat → Nat) (start j : Nat),
      (∀ k, k < L.length → (start + k) % c ≠ j) →
      writeBytes f c start L j = f j := by
  induction L with
  | nil => intro f start j _; rfl
  | cons b rest ih =>
    intro f start j h
    show writeBytes (update f (start % c) b) c (start + 1) rest j = f j
    rw [ih (update f (start % c) b) (start + 1) j]
    · apply update_other
      intro hj
      exact h 0 (Nat.succ_pos _) (by simpa using hj.symm)
    · intro k hk
      have := h (k + 1) (by simpa using Nat.succ_lt_succ hk)
      simpa [Nat.add_assoc, Nat.add_comm 1 k] using this

/-- Each copied byte is found at its wrapped position, provided the whole
payload fits inside the capacity (so its positions are pairwise distinct). -/
theorem writeBytes_at (c : Nat) (L : List Nat) :
    ∀ (f : Nat → Nat) (start k : Nat), k < L.length → L.length ≤ c →
      writeBytes f c start L ((start + k) % c) = L.getD k 0 := by
  induction L with
  | nil => intro f start k hk _; exact absurd hk (by simp)
  | cons b rest ih =>
    intro f start k hk hlen
    match k with
    | 0 =>
      show writeBytes (update f (start % c) b) c (start + 1) rest ((start + 0) % c) = b
      rw [writeBytes_untouched]
      · simpa using update_same f (start % c) b
      · intro t ht heq
        have h1 : start + 1 + t = start + (1 + t) := by omega
        rw [h1] at heq
        have h2 : (1 + t : Nat) = 0 :=
          add_mod_inj (by simp at hlen; omega) (by simp at hlen; omega) heq
        omega
    | k' + 1 =>
      show writeBytes (update f (start % c) b) c (start + 1) rest
            ((start + (k' + 1)) % c) = rest.getD k' 0
      have h1 : start + (k' + 1) = start + 1 + k' := by omega
      rw [h1]
      exact ih _ (start + 1) k' (by simpa using Nat.lt_of_succ_lt_succ hk)
        (by simp at hlen ⊢; omega)

theorem map_getD_range (l : List Nat) :
    (List.range l.length).map (fun k => l.getD k 0) = l := by
  apply List.ext_getElem
  · simp
  · intro i h1 h2
    simp [List.getD_eq_getElem?_getD, List.getElem?_eq_getElem h2]

/-! ### Ring buffer lemmas -/

namespace SharedMemoryRingBuffer

theorem DataToRead_lt (s : SharedMemoryRingBuffer) (hc : 0 < s.capacity) :
    DataToRead s < s.capacity :=
  Nat.mod_lt _ hc

theorem pending_add_free (s : SharedMemoryRingBuffer) (hc : 0 < s.capacity) :
    DataToRead s + MaxToWrite s = s.capacity - 1 := by
  have := DataToRead_lt s hc
  unfold MaxToWrite
  omega

theorem Write_succ_iff (s : SharedMemoryRingBuffer) (p : List Nat) :
    (Write s p).1 = true ↔ p.length ≤ MaxToWrite s := by
  unfold Write
  split <;> simp_all

theorem Write_fail_state {s : SharedMemoryRingBuffer} {p : List Nat}
    (h : (Write s p).1 = false) : (Write s p).2 = s := by
  unfold Write at h ⊢
  split <;> simp_all

theorem Write_succ_state {s : SharedMemoryRingBuffer} {p : List Nat}
    (h : (Write s p).1 = true) :
    (Write s p).2 =
      { s with
        data := writeBytes s.data s.capacity s.writeOffset p
        writeOffset := (s.writeOffset + p.length) % s.capacity } := by
  unfold Write at h ⊢
  split <;> simp_all

theorem WF_write {s : SharedMemoryRingBuffer} (hwf : WF s) (p : List Nat) :
    WF (Write s p).2 ∧ (Write s p).2.capacity = s.capacity ∧
      (Write s p).2.readOffset = s.readOffset := by
  unfold Write
  split
  · exact ⟨hwf, rfl, rfl⟩
  · exact ⟨⟨hwf.1, Nat.mod_lt _ hwf.1, hwf.2.2⟩, rfl, rfl⟩

theorem DataToRead_write {s : SharedMemoryRingBuffer} {p : List Nat}
    (hwf : WF s) (hok : (Write s p).1 = true) :
    DataToRead (Write s p).2 = DataToRead s + p.length := by
  obtain ⟨hc, hw, hr⟩ := hwf
  have hlen : p.length ≤ MaxToWrite s := (Write_succ_iff s p).1 hok
  have hP : DataToRead s < s.capacity := DataToRead_lt s hc
  have hPlen : DataToRead s + p.length < s.capacity := by
    unfold MaxToWrite at hlen; omega
  rw [Write_succ_state hok]
  show ((s.writeOffset + p.length) % s.capacity + s.capacity - s.readOffset) %
      s.capacity = DataToRead s + p.length
  have hweq : (s.readOffset + DataToRead s) % s.capacity = s.writeOffset :=
    read_add_pending hr hw
  rw [← hweq, Nat.mod_add_mod, Nat.add_assoc]
  exact mod_sub_cancel hr.le hPlen

theorem Write_data_untouched {s : SharedMemoryRingBuffer} {p : List Nat}
    (hwf : WF s) (hok : (Write s p).1 = true) {i : Nat}
    (hi : i < DataToRead s) :
    (Write s p).2.data ((s.readOffset + i) % s.capacity) =
      s.data ((s.readOffset + i) % s.capacity) := by
  obtain ⟨hc, hw, hr⟩ := hwf
  have hlen : p.length ≤ MaxToWrite s := (Write_succ_iff s p).1 hok
  have hPlen : DataToRead s + p.length < s.capacity := by
    have := DataToRead_lt s hc
    unfold MaxToWrite at hlen; omega
  have hweq : (s.readOffset + DataToRead s) % s.capacity = s.writeOffset :=
    read_add_pending hr hw
  rw [Write_succ_state hok]
  apply writeBytes_untouched
  intro k hk heq
  rw [← hweq, Nat.mod_add_mod, Nat.add_assoc] at heq
  have : DataToRead s + k = i := add_mod_inj (by omega) (by omega) heq
  omega

theorem Write_data_new {s : SharedMemoryRingBuffer} {p : List Nat}
    (hwf : WF s) (hok : (Write s p).1 = true) {k : Nat}
    (hk : k < p.length) :
    (Write s p).2.data ((s.readOffset + (DataToRead s + k)) % s.capacity) =
      p.getD k 0 := by
  obtain ⟨hc, hw, hr⟩ := hwf
  have hlen : p.length ≤ MaxToWrite s := (Write_succ_iff s p).1 hok
  have hPlen : DataToRead s + p.length < s.capacity := by
    have := DataToRead_lt s hc
    unfold MaxToWrite at hlen; omega
  have hweq : (s.readOffset + DataToRead s) % s.capacity = s.writeOffset :=
    read_add_pending hr hw
  rw [Write_succ_state hok]
  show writeBytes s.data s.capacity s.writeOffset p
      ((s.readOffset + (DataToRead s + k)) % s.capacity) = p.getD k 0
  have hpos : (s.readOffset + (DataToRead s + k)) % s.capacity =
      (s.writeOffset + k) % s.capacity := by
    rw [← hweq, Nat.mod_add_mod, Nat.add_assoc]
  rw [hpos]
  exact writeBytes_at s.capacity p s.data s.writeOffset k hk (by omega)

theorem Write_pending {s : SharedMemoryRingBuffer} {p : List Nat}
    (hwf : WF s) (hok : (Write s p).1 = true) :
    ringPending (Write s p).2 = ringPending s ++ p := by
  have hdr : DataToRead (Write s p).2 = DataToRead s + p.length :=
    DataToRead_write hwf hok
  have hcap : (Write s p).2.capacity = s.capacity := (WF_write hwf p).2.1
  have hro : (Write s p).2.readOffset = s.readOffset := (WF_write hwf p).2.2
  have lhs_eq : ringPending (Write s p).2 =
      (List.range (DataToRead s + p.length)).map
        (fun i => (Write s p).2.data ((s.readOffset + i) % s.capacity)) := by
    rw [ringPending, readBytes, hdr, hcap, hro]
  rw [lhs_eq, List.range_add, List.map_append, List.map_map]
  congr 1
  · rw [ringPending, readBytes]
    apply List.map_congr_left
    intro i hi
    exact Write_data_untouched hwf hok (List.mem_range.1 hi)
  · have step : ∀ k ∈ List.range p.length,
        ((fun i => (Write s p).2.data ((s.readOffset + i) % s.capacity)) ∘
          (DataToRead s + ·)) k = p.getD k 0 := by
      intro k hk
      exact Write_data_new hwf hok (List.mem_range.1 hk)
    rw [List.map_congr_left step, map_getD_range]

theorem Read_state (s : SharedMemoryRingBuffer) (n : Nat) :
    (Read s n).2 =
      { s with readOffset :=
          (s.readOffset + min n (DataToRead s)) % s.capacity } := rfl

theorem WF_read {s : SharedMemoryRingBuffer} (hwf : WF s) (n : Nat) :
    WF (Read s n).2 ∧ (Read s n).2.capacity = s.capacity ∧
      (Read s n).2.writeOffset = s.writeOffset ∧
      (Read s n).2.data = s.data :=
  ⟨⟨hwf.1, hwf.2.1, Nat.mod_lt _ hwf.1⟩, rfl, rfl, rfl⟩

theorem DataToRead_read {s : SharedMemoryRingBuffer} (hwf : WF s) (n : Nat) :
    DataToRead (Read s n).2 = DataToRead s - min n (DataToRead s) := by
  obtain ⟨hc, hw, hr⟩ := hwf
  have hP : DataToRead s < s.capacity := DataToRead_lt s hc
  have hm : min n (DataToRead s) ≤ DataToRead s := Nat.min_le_right n _
  have hweq : (s.readOffset + DataToRead s) % s.capacity = s.writeOffset :=
    read_add_pending hr hw
  show (s.writeOffset + s.capacity -
      (s.readOffset + min n (DataToRead s)) % s.capacity) % s.capacity = _
  rw [← hweq]
  have key : ((s.readOffset + min n (DataToRead s)) % s.capacity +
      (DataToRead s - min n (DataToRead s))) % s.capacity =
      (s.readOffset + DataToRead s) % s.capacity := by
    rw [Nat.mod_add_mod]
    congr 1
    omega
  rw [← key]
  exact mod_sub_cancel (Nat.le_of_lt (Nat.mod_lt _ hc)) (by omega)

theorem Read_take (s : SharedMemoryRingBuffer) (n : Nat) :
    (Read s n).1 = (ringPending s).take n := by
  show readBytes s (min n (DataToRead s)) =
    (readBytes s (DataToRead s)).take n
  rw [readBytes, readBytes, ← List.map_take, List.take_range]

theorem Read_pending {s : SharedMemoryRingBuffer} (hwf : WF s) (n : Nat) :
    ringPending (Read s n).2 = (ringPending s).drop n := by
  obtain ⟨hc, hw, hr⟩ := hwf
  have hP : DataToRead s < s.capacity := DataToRead_lt s hc
  have hdr := DataToRead_read ⟨hc, hw, hr⟩ n
  apply List.ext_getElem
  · simp [ringPending, readBytes, hdr]
    omega
  · intro i h1 h2
    have hi : i < DataToRead s - min n (DataToRead s) := by
      simpa [ringPending, readBytes, hdr] using h1
    have hn : min n (DataToRead s) = n := by omega
    have harg : ((s.readOffset + min n (DataToRead s)) % s.capacity + i) %
        s.capacity = (s.readOffset + (n + i)) % s.capacity := by
      rw [Nat.mod_add_mod, Nat.add_assoc, hn]
    calc (ringPending (Read s n).2)[i]
        = s.data (((s.readOffset + min n (DataToRead s)) % s.capacity + i) %
            s.capacity) := by
          simp [ringPending, readBytes, Read]
      _ = s.data ((s.readOffset + (n + i)) % s.capacity) := by rw [harg]
      _ = ((ringPending s).drop n)[i] := by
          rw [List.getElem_drop]
          simp [ringPending, readBytes]

theorem length_ringPending (s : SharedMemoryRingBuffer) :
    (ringPending s).length = DataToRead s := by
  simp [ringPending, readBytes]

theorem reachable_wf {c : Nat} {s : SharedMemoryRingBuffer}
    (h : Reachable c s) : s.capacity = c ∧ WF s := by
  induction h with
  | create hc => exact ⟨rfl, hc, hc, hc⟩
  | write s p _ ih =>
    exact ⟨(WF_write ih.2 p).2.1.trans ih.1, (WF_write ih.2 p).1⟩
  | read s n _ ih =>
    exact ⟨(WF_read ih.2 n).2.1.trans ih.1, (WF_read ih.2 n).1⟩
  | clear s _ ih =>
    exact ⟨ih.1, ih.2.1, ih.2.1, ih.2.1⟩

/-- The ring buffer refines the unbounded queue: along any trace whose
writes all succeed, the delivered bytes and the pending contents agree with
the reference model started from the abstraction of the initial state. -/
theorem runRing_refines {ops : List RingOp} :
    ∀ {s : SharedMemoryRingBuffer} {outs : List Nat}
      {sf : SharedMemoryRingBuffer}, WF s →
      runRing s ops = some (outs, sf) →
      runQueue (ringPending s) ops = (outs, ringPending sf) := by
  induction ops with
  | nil =>
    intro s outs sf _ h
    simp only [runRing, Option.some_inj] at h
    obtain ⟨h1, h2⟩ := Prod.mk.injEq .. ▸ h
    simp [runQueue, ← h1, ← h2]
  | cons op ops ih =>
    intro s outs sf hwf h
    cases op with
    | write p =>
      simp only [runRing] at h
      by_cases hok : (Write s p).1 = true
      · rw [if_pos hok] at h
        have hrec := ih ((WF_write hwf p).1) h
        show runQueue (ringPending s ++ p) ops = (outs, ringPending sf)
        rw [← Write_pending hwf hok]
        exact hrec
      · rw [if_neg hok] at h
        cases h
    | read n =>
      simp only [runRing] at h
      cases hrec : runRing (Read s n).2 ops with
      | none => rw [hrec] at h; cases h
      | some pr =>
        obtain ⟨outs', sf'⟩ := pr
        rw [hrec] at h
        have hq := ih ((WF_read hwf n).1) hrec
        simp only [Option.some_inj] at h
        obtain ⟨h1, h2⟩ := Prod.mk.injEq .. ▸ h
        show ((ringPending s).take n ++
            (runQueue ((ringPending s).drop n) ops).1,
            (runQueue ((ringPending s).drop n) ops).2) = (outs, ringPending sf)
        rw [← Read_pending hwf n, hq, ← h1, ← h2, ← Read_take]

/-! ### The claims about the ring buffer -/

/-- C1 counterexample: over a ring that already holds one pending byte
(capacity 4, a prior successful `Write` of byte 5), a successful `Write`
of byte 7 followed immediately by a `Read` of 1 byte does not return the
byte just written: FIFO order delivers the older pending byte instead. -/
theorem C1_counterexample :
    (Write (Write (init 4) [5]).2 [7]).1 = true ∧
    (Read (Write (Write (init 4) [5]).2 [7]).2 1).1 ≠ [7] := by
  decide

/-- C1 (amended): for every well-formed ring state with no pending data
(`DataToRead() = 0`), a successful `Write` of a payload followed
immediately by a `Read` of the same size returns exactly the byte sequence
that was written, including when the payload straddles the wraparound
boundary of the capacity region (success forces `n ≤ capacity − 1`). -/
theorem C1_roundtrip_from_empty {s : SharedMemoryRingBuffer} {p : List Nat}
    (hwf : WF s) (hempty : DataToRead s = 0)
    (hok : (Write s p).1 = true) :
    (Read (Write s p).2 p.length).1 = p := by
  have hpend : ringPending s = [] := by
    rw [ringPending, hempty]
    rfl
  rw [Read_take, Write_pending hwf hok, hpend, List.nil_append,
    List.take_length]

/-- C1 witness: a concrete empty ring of capacity 4 with both offsets at 2;
the 3-byte payload straddles the wraparound boundary and is returned
verbatim by the immediately following read. -/
theorem C1_witness :
    WF wrapState ∧ DataToRead wrapState = 0 ∧
    (Write wrapState [7, 8, 9]).1 = true ∧
    (Read (Write wrapState [7, 8, 9]).2 3).1 = [7, 8, 9] :=
  ⟨by decide, by decide, by decide,
    C1_roundtrip_from_empty (by decide) (by decide) (by decide)⟩

/-- C2: `Write` fails exactly when the payload exceeds `MaxToWrite()` (so a
write of exactly `MaxToWrite()` bytes succeeds), and a failed `Write`
leaves the state completely unchanged: offsets and payload bytes
untouched. -/
theorem C2_write_all_or_nothing (s : SharedMemoryRingBuffer)
    (p : List Nat) :
    ((Write s p).1 = false ↔ MaxToWrite s < p.length) ∧
    (p.length = MaxToWrite s → (Write s p).1 = true) ∧
    ((Write s p).1 = false → (Write s p).2 = s) := by
  refine ⟨?_, ?_, fun h => Write_fail_state h⟩
  · rw [← Bool.not_eq_true, Write_succ_iff, Nat.not_le]
  · intro h
    exact (Write_succ_iff s p).2 (le_of_eq h)

/-- C2 witness: on the freshly created capacity-4 ring (`MaxToWrite() = 3`)
a 4-byte write fails leaving the state unchanged, and a 3-byte write (of
exactly `MaxToWrite()` bytes) succeeds. -/
theorem C2_witness :
    (Write (init 4) [1, 2, 3, 4]).1 = false ∧
    (Write (init 4) [1, 2, 3, 4]).2 = init 4 ∧
    (Write (init 4) [1, 2, 3]).1 = true :=
  ⟨(C2_write_all_or_nothing (init 4) [1, 2, 3, 4]).1.2 (by decide),
    (C2_write_all_or_nothing (init 4) [1, 2, 3, 4]).2.2
      ((C2_write_all_or_nothing (init 4) [1, 2, 3, 4]).1.2 (by decide)),
    (C2_write_all_or_nothing (init 4) [1, 2, 3]).2.1 (by decide)⟩

/-- C3: for every reachable ring state the reserved-slot equation
`DataToRead() + MaxToWrite() = capacity − 1` holds, and (for any ring with
`capacity ≥ 2`, the smallest capacity at which a full ring exists at all)
two reachable states over the same capacity that agree on the offset pair
cannot be one empty and the other full: full and empty never map to the
same `(write offset, read offset)` pair. -/
theorem C3_reserved_slot_invariant {c : Nat}
    {s₁ s₂ : SharedMemoryRingBuffer}
    (h₁ : Reachable c s₁) (h₂ : Reachable c s₂) :
    DataToRead s₁ + MaxToWrite s₁ = c - 1 ∧
    (2 ≤ c → s₁.writeOffset = s₂.writeOffset →
      s₁.readOffset = s₂.readOffset →
      ¬(DataToRead s₁ = 0 ∧ DataToRead s₂ = c - 1)) := by
  obtain ⟨hc1, hwf1⟩ := reachable_wf h₁
  obtain ⟨hc2, hwf2⟩ := reachable_wf h₂
  constructor
  · rw [← hc1]
    exact pending_add_free s₁ hwf1.1
  · rintro hcge hww hrr ⟨hemp, hfull⟩
    have heq : DataToRead s₁ = DataToRead s₂ := by
      unfold DataToRead
      rw [hww, hrr, hc1, hc2]
    omega

/-- C3 witness: the freshly created capacity-4 ring satisfies the equation
and is not simultaneously empty and full. -/
theorem C3_witness :
    DataToRead (init 4) + MaxToWrite (init 4) = 4 - 1 ∧
    ¬(DataToRead (init 4) = 0 ∧ DataToRead (init 4) = 4 - 1) :=
  ⟨(C3_reserved_slot_invariant (Reachable.create 4 (by decide))
      (Reachable.create 4 (by decide))).1,
    (C3_reserved_slot_invariant (Reachable.create 4 (by decide))
      (Reachable.create 4 (by decide))).2 (by decide) rfl rfl⟩

/-- C5: `Read(buffer, maxDataSize)` returns exactly
`min(maxDataSize, DataToRead())` bytes taken from the wrapped positions
starting at the read offset, advances the read offset by that amount
modulo the capacity, changes nothing else, and a read of zero bytes when
nothing is pending is an ordinary successful result (the operation is
total, never an error). -/
theorem C5_read_semantics (s : SharedMemoryRingBuffer) (n : Nat) :
    (Read s n).1.length = min n (DataToRead s) ∧
    (Read s n).1 = (List.range (min n (DataToRead s))).map
      (fun i => s.data ((s.readOffset + i) % s.capacity)) ∧
    (Read s n).2.readOffset =
      (s.readOffset + min n (DataToRead s)) % s.capacity ∧
    (Read s n).2.writeOffset = s.writeOffset ∧
    (Read s n).2.data = s.data ∧
    (DataToRead s = 0 → (Read s n).1 = []) := by
  refine ⟨?_, rfl, rfl, rfl, rfl, ?_⟩
  · show (readBytes s (min n (DataToRead s))).length = _
    simp [readBytes]
  · intro h
    show readBytes s (min n (DataToRead s)) = []
    simp [readBytes, h]

/-- C5 witness: reading 3 bytes from the freshly created (empty) capacity-4
ring returns zero bytes, which is a success. -/
theorem C5_witness :
    (Read (init 4) 3).1.length = min 3 (DataToRead (init 4)) ∧
    (Read (init 4) 3).1 = [] :=
  ⟨(C5_read_semantics (init 4) 3).1,
    (C5_read_semantics (init 4) 3).2.2.2.2.2 (by decide)⟩

/-- C7: from any prior state, `Clear()` resets both offsets to 0 and
zero-fills the data region, after which `DataToRead()` is 0 and
`MaxToWrite()` is `capacity − 1`. -/
theorem C7_clear_resets (s : SharedMemoryRingBuffer) :
    DataToRead (Clear s) = 0 ∧ MaxToWrite (Clear s) = s.capacity - 1 ∧
    (Clear s).writeOffset = 0 ∧ (Clear s).readOffset = 0 ∧
    ∀ i, (Clear s).data i = 0 := by
  have h0 : DataToRead (Clear s) = 0 := by
    show (0 + s.capacity - 0) % s.capacity = 0
    simp
  refine ⟨h0, ?_, rfl, rfl, fun i => rfl⟩
  show s.capacity - DataToRead (Clear s) - 1 = s.capacity - 1
  rw [h0]
  omega

/-- C4: along every trace of successful `Write` and `Read` operations from
a freshly created ring whose writes enqueue more than `capacity` bytes in
total (forcing wraparound), the bytes delivered by the reads — and the
bytes left pending — are exactly those of the reference unbounded byte
queue run on the same trace: the ring is observationally a FIFO queue. -/
theorem C4_fifo_refinement {c : Nat} {ops : List RingOp} {outs : List Nat}
    {sf : SharedMemoryRingBuffer} (hc : 0 < c)
    (_hwrap : c < totalWritten ops)
    (hrun : runRing (init c) ops = some (outs, sf)) :
    runQueue [] ops = (outs, ringPending sf) := by
  have hwf : WF (init c) := ⟨hc, hc, hc⟩
  have hpend : ringPending (init c) = [] := by
    rw [ringPending]
    show readBytes (init c) ((0 + c - 0) % c) = []
    simp [readBytes]
  rw [← hpend]
  exact runRing_refines hwf hrun

/-- C4 witness: the concrete trace `fifoTrace` transfers 8 bytes through a
capacity-4 ring, wrapping both offsets, and its outputs match the
reference queue. -/
theorem C4_witness :
    0 < 4 ∧ 4 < totalWritten fifoTrace ∧
    runQueue [] fifoTrace =
      (((runRing (init 4) fifoTrace).getD ([], init 4)).1,
        ringPending ((runRing (init 4) fifoTrace).getD ([], init 4)).2) := by
  refine ⟨by decide, by decide, ?_⟩
  have hrun : runRing (init 4) fifoTrace =
      some (((runRing (init 4) fifoTrace).getD ([], init 4)).1,
        ((runRing (init 4) fifoTrace).getD ([], init 4)).2) := rfl
  exact C4_fifo_refinement (by decide) (by decide) hrun

end SharedMemoryRingBuffer

/-! ### The claims about the segment -/

namespace SharedMemory

/-- C6: a `Create` that creates a new object (`CreatedNew`) hands out
memory that reads as all-zero everywhere, and a `Create` that attaches to
a pre-existing object (`CreatedExisting`) leaves the existing content
untouched. -/
theorem C6_create_zero_or_preserve (existing : Option SegMem) (size : Nat)
    (openIfCreated : Bool) :
    ((Create existing size openIfCreated).1 = CreateResult.CreatedNew →
      ∀ i, segByte (Create existing size openIfCreated).2 i = 0) ∧
    ((Create existing size openIfCreated).1 = CreateResult.CreatedExisting →
      (Create existing size openIfCreated).2 = existing) := by
  rcases existing with _ | m
  · by_cases hsz : size = 0 <;> simp [Create, hsz, segByte]
  · by_cases hsz : size = 0
    · simp [Create, hsz]
    · by_cases hopen : openIfCreated <;> simp [Create, hsz, hopen]

/-- C6 witness: creating a fresh 8-byte object with `openIfCreated = false`
yields `CreatedNew` and zeroed content; attaching to an existing object
yields `CreatedExisting` and preserves it. -/
theorem C6_witness :
    (Create none 8 false).1 = CreateResult.CreatedNew ∧
    segByte (Create none 8 false).2 5 = 0 ∧
    (Create (some ⟨4, fun _ => 9⟩) 8 true).1 =
      CreateResult.CreatedExisting ∧
    (Create (some ⟨4, fun _ => 9⟩) 8 true).2 = some ⟨4, fun _ => 9⟩ :=
  ⟨by decide,
    (C6_create_zero_or_preserve none 8 false).1 (by decide) 5,
    by decide,
    (C6_create_zero_or_preserve (some ⟨4, fun _ => 9⟩) 8 true).2
      (by decide)⟩

/-- C8: for every reachable handle state, the data pointer is non-null iff
`IsMapped()`, the mapping handle is valid iff `IsReady()`; `Create`/`Open`
make `IsReady()` true without changing `IsMapped()`, `Map` makes
`IsMapped()` true, and `UnMap`/`Close` make `IsMapped()` false. -/
theorem C8_mapped_handle_invariant {h : HandleState} (hr : HReach h) :
    (h.data.isSome = IsMapped h) ∧
    (h.mapHandle.isSome = IsReady h) ∧
    (∀ k, IsReady (createOp h k) = true ∧
      IsMapped (createOp h k) = IsMapped h) ∧
    (∀ base off, IsMapped (mapOp h base off) = true) ∧
    IsMapped (unMapOp h) = false ∧ IsMapped (closeOp h) = false := by
  refine ⟨?_, rfl, fun k => ⟨rfl, rfl⟩, fun base off => rfl, rfl, rfl⟩
  induction hr with
  | new => rfl
  | create h k _ ih => exact ih
  | map h base off _ _ _ => rfl
  | unmap h _ _ => rfl
  | close h _ _ => rfl

/-- C8 witness: a handle taken through construct, `Create`, `Map` has a
non-null data pointer matching `IsMapped()`, and `UnMap` turns
`IsMapped()` off. -/
theorem C8_witness :
    ((mapOp (createOp newHandle 1) 100 16).data.isSome =
      IsMapped (mapOp (createOp newHandle 1) 100 16)) ∧
    IsMapped (unMapOp (mapOp (createOp newHandle 1) 100 16)) = false :=
  ⟨(C8_mapped_handle_invariant
      (HReach.map _ 100 16 (HReach.create _ 1 HReach.new) rfl)).1,
    (C8_mapped_handle_invariant
      (HReach.map _ 100 16 (HReach.create _ 1 HReach.new) rfl)).2.2.2.2.1⟩

/-- C9: whenever the caller does not currently hold the lock,
`IsLockAbandoned()` returns false; it returns true only while holding a
lock whose acquisition was recorded as granted through the previous
holder's abandonment. -/
theorem C9_abandoned_only_while_held {m : GlobalMutex} (hm : MReach m) :
    (m.held = false → IsLockAbandoned m = false) ∧
    (IsLockAbandoned m = true →
      m.held = true ∧ m.lastLockResult = LockAcquire.abandoned) := by
  induction hm with
  | start => exact ⟨fun _ => rfl, fun hab => absurd hab (by decide)⟩
  | lock m pa _ _ =>
    constructor
    · intro hh
      simp [lockOp] at hh
    · intro hab
      cases pa
      · simp [lockOp, IsLockAbandoned] at hab
      · exact ⟨rfl, rfl⟩
  | tryLock m acq pa _ ih =>
    cases acq
    · exact ih
    · constructor
      · intro hh
        simp [tryLockOp, lockOp] at hh
      · intro hab
        cases pa
        · simp [tryLockOp, lockOp, IsLockAbandoned] at hab
        · exact ⟨rfl, rfl⟩
  | unlock m _ _ =>
    exact ⟨fun _ => rfl,
      fun hab => absurd hab (by simp [unlockOp, IsLockAbandoned])⟩

/-- C9 witness: before any acquisition the query reports false; after an
acquisition granted through abandonment it reports true, and the theorem
recovers that the lock is held with an abandoned acquisition on record. -/
theorem C9_witness :
    IsLockAbandoned mutexInit = false ∧
    IsLockAbandoned (lockOp true mutexInit) = true ∧
    ((lockOp true mutexInit).held = true ∧
      (lockOp true mutexInit).lastLockResult = LockAcquire.abandoned) :=
  ⟨(C9_abandoned_only_while_held MReach.start).1 rfl,
    by decide,
    (C9_abandoned_only_while_held
      (MReach.lock mutexInit true MReach.start)).2 (by decide)⟩

/-- C10: every name retained in the fixed 128-byte `m_name` buffer is at
most 127 characters (leaving room for the terminator), and for every name
within that bound `GetName()` returns exactly the name that was passed
in. -/
theorem C10_name_bounded (name : List Char) :
    (GetName (storeName name)).length ≤ 127 ∧
    (name.length ≤ 127 → GetName (storeName name) = name) := by
  constructor
  · show (name.take 127).length ≤ 127
    rw [List.length_take]
    omega
  · intro h
    exact List.take_of_length_le h

/-- C10 witness: a two-character name is stored within the bound and read
back unchanged. -/
theorem C10_witness :
    (GetName (storeName ['a', 'b'])).length ≤ 127 ∧
    GetName (storeName ['a', 'b']) = ['a', 'b'] :=
  ⟨(C10_name_bounded ['a', 'b']).1,
    (C10_name_bounded ['a', 'b']).2 (by decide)⟩

end SharedMemory

end AZ
